import Mathlib

/-!
Verification of the folder-ranking engine of the bookmark-manager extension.

The repository contains two ranking engines:

* a lexical TF-IDF engine (`src/background.ts`, named `tfidfFolderClassifier.ts`
  in its header): `termFrequency`, `computeIDF`, `computeTFIDF`,
  `cosineSimilarity` over sparse term-weight maps, and the `main` request
  handler that scores every folder against the current page, sorts descending
  and keeps the top 3 — modelled in namespace `Tfidf`;
* a semantic embedding engine (the MV3 service-worker part of `src/popup.ts`):
  dense-vector `cosineSimilarity` (throwing on length mismatch),
  `buildFolderCentroids` (per-folder mean of up to 3 embedded item titles),
  `loadCentroids` (cache-or-build) and `suggestFoldersForPage` (score, stable
  sort descending, take k, default k = 5) — modelled in namespace `Sem`.

Floating-point numbers are modelled as real numbers; JavaScript
`Array.prototype.sort`, which the ECMAScript standard requires to be stable,
is modelled as an insertion sort over index-tagged elements ordered by
descending score with the original index as tiebreak (the unique output any
stable sort produces for this comparator).
-/

namespace Tfidf

/-- A JS object used as a sparse term-weight map (`type Vector = { [term: string]: number }`),
modelled as an association list; JS key-lookup `v[t] || 0` is `getW`. -/
abbrev SparseVec := List (String × ℝ)

/-- The keys of a sparse vector (`Object.keys`). -/
def keys (v : SparseVec) : List String := v.map Prod.fst

/-- JS lookup-with-default `v[t] || 0`: weight of term `t` in `v`, `0` if absent. -/
def getW (v : SparseVec) (t : String) : ℝ :=
  ((v.find? fun p => p.1 == t).map Prod.snd).getD 0

/-- `termFrequency(tokens)` from `src/background.ts`: count each token, divide every
count by the total token count.  JS stores the keys in first-occurrence order;
only the key set and the weights matter here, so `List.dedup` (which also keeps
one copy of each key) stands in for the JS key order. -/
noncomputable def termFrequency (tokens : List String) : SparseVec :=
  tokens.dedup.map fun t => (t, (tokens.count t : ℝ) / (tokens.length : ℝ))

/-- Vocabulary of a corpus: every key of every document vector
(`df` is built by iterating `Object.keys(tf)` of each document). -/
def vocabOf (allTFs : List SparseVec) : List String :=
  (allTFs.flatMap keys).dedup

/-- Document frequency of `t`: the number of document vectors whose key set
contains `t` (the JS loop `df[term] = (df[term] || 0) + 1`, summed over
documents). -/
def dfOf (allTFs : List SparseVec) (t : String) : Nat :=
  allTFs.countP fun tf => (keys tf).contains t

/-- `computeIDF(allTFs)` from `src/background.ts`:
`idf[term] = Math.log((N + 1) / (1 + df[term])) + 1` for every term of the
vocabulary, where `N = allTFs.length`. -/
noncomputable def computeIDF (allTFs : List SparseVec) : SparseVec :=
  vocabOf allTFs |>.map fun t =>
    (t, Real.log (((allTFs.length : ℝ) + 1) / (1 + (dfOf allTFs t : ℝ))) + 1)

/-- `computeTFIDF(tf, idf)` from `src/background.ts`: for every term of the IDF
vocabulary, `tfidf[term] = (tf[term] || 0) * idf[term]`. -/
noncomputable def computeTFIDF (tf idf : SparseVec) : SparseVec :=
  idf.map fun p => (p.1, getW tf p.1 * p.2)

/-- Sum of squared weights of a sparse vector over its own key set;
`‖v‖²` of the spec. -/
noncomputable def spNormSq (v : SparseVec) : ℝ :=
  ((keys v).dedup.map fun t => getW v t * getW v t).sum

/-- Dot product of two sparse vectors over the union of their key sets. -/
noncomputable def spDot (a b : SparseVec) : ℝ :=
  ((keys a ++ keys b).dedup.map fun t => getW a t * getW b t).sum

/-- `cosineSimilarity(vecA, vecB)` from `src/background.ts`: accumulate
`dot`, `normA`, `normB` over the union of the key sets
(`new Set([...Object.keys(vecA), ...Object.keys(vecB)])`), then
`(normA && normB) ? dot / (Math.sqrt(normA) * Math.sqrt(normB)) : 0`
(a JS number is truthy exactly when it is nonzero). -/
noncomputable def cosineSimilarity (vecA vecB : SparseVec) : ℝ :=
  let terms := (keys vecA ++ keys vecB).dedup
  let dot := (terms.map fun t => getW vecA t * getW vecB t).sum
  let normA := (terms.map fun t => getW vecA t * getW vecA t).sum
  let normB := (terms.map fun t => getW vecB t * getW vecB t).sum
  if normA ≠ 0 ∧ normB ≠ 0 then dot / (Real.sqrt normA * Real.sqrt normB) else 0

end Tfidf

namespace Sem

/-- Sum of element-wise products of two dense vectors (the `dot` accumulator of
the dense `cosineSimilarity` in `src/popup.ts`). -/
noncomputable def denDot (a b : List ℝ) : ℝ :=
  (List.zipWith (· * ·) a b).sum

/-- Sum of squared entries of a dense vector (the `normA` / `normB`
accumulators of the dense `cosineSimilarity`). -/
noncomputable def denNormSq (a : List ℝ) : ℝ :=
  (a.map fun x => x * x).sum

/-- `cosineSimilarity(a, b)` from the semantic engine in `src/popup.ts`:
throws when the lengths differ, returns `0` when either squared norm is `0`
(the explicit zero-division guard), else `dot / (sqrt(normA) * sqrt(normB))`.
The thrown `Error` is modelled as `Except.error`; the source interpolates the
two lengths into the message, which is elided here. -/
noncomputable def cosineSimilarity (a b : List ℝ) : Except String ℝ :=
  if a.length ≠ b.length then
    .error "Vectors must be of the same length"
  else if denNormSq a = 0 ∨ denNormSq b = 0 then .ok 0
  else .ok (denDot a b / (Real.sqrt (denNormSq a) * Real.sqrt (denNormSq b)))

end Sem

/-- Ordering used to model `Array.prototype.sort((a, b) => b.score - a.score)`
on index-tagged elements: higher score first, equal scores keep the original
index order.  ECMAScript requires `sort` to be stable, and a stable sort with
this comparator produces exactly the list sorted by this relation. -/
def rle {α : Type*} (score : α → ℝ) (a b : Nat × α) : Prop :=
  score b.2 < score a.2 ∨ (score a.2 = score b.2 ∧ a.1 ≤ b.1)

noncomputable instance {α : Type*} (score : α → ℝ) : DecidableRel (rle score) :=
  fun a b => by unfold rle; infer_instance

instance {α : Type*} (score : α → ℝ) : IsTrans (Nat × α) (rle score) where
  trans a b c hab hbc := by
    rcases hab with h1 | ⟨e1, i1⟩ <;> rcases hbc with h2 | ⟨e2, i2⟩
    · exact Or.inl (h2.trans h1)
    · exact Or.inl (by rw [← e2]; exact h1)
    · exact Or.inl (by rw [e1]; exact h2)
    · exact Or.inr ⟨e1.trans e2, i1.trans i2⟩

instance {α : Type*} (score : α → ℝ) : IsTotal (Nat × α) (rle score) where
  total a b := by
    rcases lt_trichotomy (score a.2) (score b.2) with h | h | h
    · exact Or.inr (Or.inl h)
    · rcases Nat.le_total a.1 b.1 with hi | hi
      · exact Or.inl (Or.inr ⟨h, hi⟩)
      · exact Or.inr (Or.inr ⟨h.symm, hi⟩)
    · exact Or.inl (Or.inl h)

/-- `list.sort((a, b) => score(b) - score(a))`: the ECMAScript stable
descending sort, modelled by tagging each element with its index, insertion
sorting by `rle score`, and dropping the tags. -/
noncomputable def stableSortDesc {α : Type*} (score : α → ℝ) (l : List α) : List α :=
  (l.enum.insertionSort (rle score)).map Prod.snd

namespace Sem

/-- A child entry of a bookmark folder, as `buildFolderCentroids` sees it:
its title and its `url` property (`undefined`, i.e. `none`, for subfolders). -/
structure BChild where
  title : String
  url : Option String
deriving DecidableEq

/-- A bookmark folder as seen by the `for (const f of folders)` loop of
`buildFolderCentroids` (a tree node with a nonempty `children` array; the
stack-based tree traversal that collects these nodes is outside every claim). -/
structure BFolder where
  id : String
  title : String
  children : List BChild
deriving DecidableEq

/-- `FolderVec` from `src/popup.ts`: a folder fingerprint. -/
structure FolderVec where
  folderId : String
  name : String
  vec : List ℝ
  size : Nat

/-- The title selection inside `buildFolderCentroids`:
`(f.children ?? []).filter((c) => c.url).map((c) => c.title).slice(0, 3)`.
JS filters on the truthiness of `url`, so a missing url and an empty-string
url are both rejected. -/
def qualifyingTitles (f : BFolder) : List String :=
  ((f.children.filter fun c => c.url.getD "" != "").map BChild.title).take 3

/-- `buildFolderCentroids` from `src/popup.ts`, per-folder loop: skip a folder
whose selected title list is empty (`if (!titles.length) continue;`), otherwise
embed each title and store the element-wise arithmetic mean
(`mean[i] += v[i]; mean[i] /= embs.length`) together with
`size = titles.length`.  `embedOne` models `embed` on a single title (the
external extractor, including the E5 `"passage: "` prefixing). -/
noncomputable def buildFolderCentroids (embedOne : String → List ℝ)
    (folders : List BFolder) : List FolderVec :=
  folders.flatMap fun f =>
    let titles := qualifyingTitles f
    if titles = [] then []
    else
      let embs := titles.map embedOne
      let dim := (embs.headD []).length
      let mean := (List.range dim).map fun i =>
        (embs.map fun v => v.getD i 0).sum / (embs.length : ℝ)
      [{ folderId := f.id, name := f.title, vec := mean, size := titles.length }]

/-- The scored record `{ ...c, score }` built inside `suggestFoldersForPage`. -/
structure Scored extends FolderVec where
  score : ℝ

/-- `centroids.map((c) => ({ ...c, score: cosineSimilarity(q, c.vec) }))`:
the dense `cosineSimilarity` throws on a length mismatch, which aborts the
whole map; the first error wins, as in JS evaluation order. -/
noncomputable def mapScores (q : List ℝ) : List FolderVec → Except String (List Scored)
  | [] => .ok []
  | c :: cs =>
    match cosineSimilarity q c.vec with
    | .error e => .error e
    | .ok s =>
      match mapScores q cs with
      | .error e => .error e
      | .ok rest => .ok (⟨c, s⟩ :: rest)

/-- `suggestFoldersForPage(pageText, k = 5)` from `src/popup.ts`, after the
query embedding: score every centroid, `.sort((a, b) => b.score - a.score)`,
`.slice(0, k)`. -/
noncomputable def suggestFoldersForPage (q : List ℝ) (cents : List FolderVec)
    (k : Nat := 5) : Except String (List Scored) :=
  (mapScores q cents).map fun scored => (stableSortDesc Scored.score scored).take k

/-- The persisted centroid cache (`idb-keyval` store of `src/storage.ts`,
keyed by the fixed `MODEL`), reduced to the one key this program uses. -/
structure CacheState where
  cache : Option (List FolderVec)

/-- `loadCentroids()` from `src/popup.ts`:
`(await loadCentroidsFromStorage(MODEL)) ?? buildFolderCentroids()`.
`buildFolderCentroids` persists its result via `saveCentroids` before
returning.  The third component counts how many times the expensive build
ran during the call. -/
noncomputable def loadCentroids (embedOne : String → List ℝ) (folders : List BFolder)
    (s : CacheState) : List FolderVec × CacheState × Nat :=
  match s.cache with
  | some c => (c, s, 0)
  | none =>
    let r := buildFolderCentroids embedOne folders
    (r, ⟨some r⟩, 1)

/-- An incoming runtime message, with whatever `k` field a caller may attach;
the source handlers only ever read `msg.action`. -/
structure RequestMsg where
  action : String
  k : Option Nat

/-- The `SUGGEST_FOLDERS` branch of the `chrome.runtime.onMessage` listener in
`src/popup.ts`: it calls `suggestFoldersForPage(pageText)` with the default
`k = 5` and never reads any `k` from the message.  (The `REBUILD_CENTROIDS`
branch only rebuilds the cache and returns no ranking.) -/
noncomputable def handleSuggestMessage (q : List ℝ) (cents : List FolderVec)
    (msg : RequestMsg) : Option (Except String (List Scored)) :=
  if msg.action = "SUGGEST_FOLDERS" then some (suggestFoldersForPage q cents) else none

end Sem

namespace Tfidf

/-- `FolderData` from `src/background.ts`. -/
structure FolderData where
  id : String
  title : String
  tf : SparseVec
  tfidf : SparseVec

/-- The scoring loop of `main`:
`folders.forEach(folder => folderScores.push({ folder, score: cosineSimilarity(pageTFIDF, folder.tfidf) }))`. -/
noncomputable def folderScores (pageTFIDF : SparseVec) (folders : List FolderData) :
    List (FolderData × ℝ) :=
  folders.map fun f => (f, cosineSimilarity pageTFIDF f.tfidf)

/-- `folderScores.sort((a, b) => b.score - a.score).slice(0, 3)` from `main`. -/
noncomputable def topFolders (pageTFIDF : SparseVec) (folders : List FolderData) :
    List (FolderData × ℝ) :=
  (stableSortDesc Prod.snd (folderScores pageTFIDF folders)).take 3

/-- The two shapes of `sendResponse` payload of the lexical `main`. -/
inductive LexResponse where
  | folders (fs : List (String × String × ℝ))
  | error (msg : String)

/-- The response logic at the end of `main` in `src/background.ts`:
`topFolders.length > 0` sends the id/title/score triples, otherwise it sends
`{ error: '適切なフォルダが見つかりませんでした' }`. -/
noncomputable def mainResponse (pageTFIDF : SparseVec) (folders : List FolderData) :
    LexResponse :=
  let top := topFolders pageTFIDF folders
  if 0 < top.length then .folders (top.map fun p => (p.1.id, p.1.title, p.2))
  else .error "適切なフォルダが見つかりませんでした"

/-- The lexical message listener: `main` runs only for
`request.action === 'BOOKMARK_MANAGER'` and never reads any `k` field. -/
noncomputable def handleMessage (pageTFIDF : SparseVec) (folders : List FolderData)
    (msg : Sem.RequestMsg) : Option LexResponse :=
  if msg.action = "BOOKMARK_MANAGER" then some (mainResponse pageTFIDF folders) else none

/-- What `chrome.storage.local.get(["idf", "folders"])` hands the lexical
`main`: a possibly-absent IDF vector and a possibly-absent folder list
(`stored.folders || []`). -/
structure LexStored where
  idf : Option SparseVec
  folders : Option (List FolderData)

/-- The corpus rebuild of the lexical `main` (`src/background.ts` lines
126-136): from the current bookmark-tree snapshot — one `(id, title, tf)`
triple per folder, exactly what `processBookmarkFolders` collects into
`folders` and `allTFs` — compute the IDF vector over all folder
term-frequency vectors and fill every folder's `tfidf` with
`computeTFIDF(f.tf, idf)`. -/
noncomputable def rebuildCorpus (src : List (String × String × SparseVec)) :
    SparseVec × List FolderData :=
  let allTFs := src.map fun p => p.2.2
  let idf := computeIDF allTFs
  (idf, src.map fun p => ⟨p.1, p.2.1, p.2.2, computeTFIDF p.2.2 idf⟩)

/-- The cache-or-build step of the lexical `main` (`src/background.ts` lines
119-138).  The source reads `stored.idf` and `stored.folders || []`, but the
cached-set check is commented out and hard-coded:
`if (/*!idf || Object.keys(idf).length === 0*/true)` — the source comment says
the IDF vector is recomputed on every click — so the values read from storage
are dead and every call rebuilds the whole corpus from the snapshot `src` and
persists the result (`chrome.storage.local.set({ idf, folders })`).  The `Nat`
component counts corpus builds during the call; the stored state `_s` is
deliberately unused, as the hard-coded guard makes the source's reads dead. -/
noncomputable def lexEnsure (src : List (String × String × SparseVec)) (_s : LexStored) :
    (SparseVec × List FolderData) × LexStored × Nat :=
  let r := rebuildCorpus src
  (r, ⟨some r.1, some r.2⟩, 1)

end Tfidf

/-! ### Helper lemmas: list sums -/

theorem sum_map_nonneg {α : Type*} (f : α → ℝ) (l : List α) (h : ∀ a ∈ l, 0 ≤ f a) :
    0 ≤ (l.map f).sum :=
  List.sum_nonneg fun x hx => by
    obtain ⟨a, ha, rfl⟩ := List.mem_map.mp hx
    exact h a ha

theorem sum_map_pos {α : Type*} (f : α → ℝ) (l : List α) (h : ∀ a ∈ l, 0 ≤ f a)
    (a0 : α) (ha0 : a0 ∈ l) (hpos : 0 < f a0) : 0 < (l.map f).sum := by
  induction l with
  | nil => cases ha0
  | cons a l ih =>
    simp only [List.map_cons, List.sum_cons]
    rcases List.mem_cons.mp ha0 with rfl | hmem
    · have h2 : 0 ≤ (l.map f).sum :=
        sum_map_nonneg f l fun x hx => h x (List.mem_cons_of_mem _ hx)
      linarith
    · have h1 : 0 ≤ f a := h a (List.mem_cons_self _ _)
      have h2 : 0 < (l.map f).sum :=
        ih (fun x hx => h x (List.mem_cons_of_mem _ hx)) hmem
      linarith

theorem sum_map_dedup_eq_toFinset (L : List String) (f : String → ℝ) :
    (L.dedup.map f).sum = L.toFinset.sum f := by
  have hfin : L.dedup.toFinset = L.toFinset := by ext x; simp
  rw [← List.sum_toFinset f (List.nodup_dedup L), hfin]

/-! ### Helper lemmas: sparse vectors -/

namespace Tfidf

theorem getW_eq_zero_of_not_mem : ∀ (v : SparseVec) (t : String), t ∉ keys v → getW v t = 0
  | [], _, _ => rfl
  | p :: rest, t, h => by
    have h1 : p.1 ≠ t := fun e => h (by simp [keys, e])
    have h2 : t ∉ keys rest := fun hm => h (by simp [keys] at hm ⊢; exact Or.inr hm)
    rw [getW, List.find?_cons_of_neg _ (by simp [h1])]
    exact getW_eq_zero_of_not_mem rest t h2

theorem mem_keys_of_getW_ne_zero {v : SparseVec} {t : String} (h : getW v t ≠ 0) :
    t ∈ keys v := by
  by_contra hm
  exact h (getW_eq_zero_of_not_mem v t hm)

theorem getW_nonneg (v : SparseVec) (t : String) (h : ∀ p ∈ v, 0 ≤ p.2) : 0 ≤ getW v t := by
  rw [getW]
  cases hf : v.find? fun p => p.1 == t with
  | none => simp
  | some p => simpa using h p (List.mem_of_find?_eq_some hf)

theorem getW_map_pair : ∀ (l : List String) (g : String → ℝ) (t : String),
    t ∈ l → l.Nodup → getW (l.map fun s => (s, g s)) t = g t
  | [], _, _, ht, _ => absurd ht (List.not_mem_nil _)
  | s :: rest, g, t, ht, hnd => by
    rcases List.mem_cons.mp ht with rfl | hmem
    · rw [List.map_cons, getW, List.find?_cons_of_pos _ (by simp)]
      rfl
    · have hne : s ≠ t := fun e => (List.nodup_cons.mp hnd).1 (e ▸ hmem)
      rw [List.map_cons, getW, List.find?_cons_of_neg _ (by simp [hne])]
      exact getW_map_pair rest g t hmem (List.nodup_cons.mp hnd).2

theorem sum_sq_over (v : SparseVec) (L : List String) (hsub : ∀ t, t ∈ keys v → t ∈ L) :
    (L.dedup.map fun t => getW v t * getW v t).sum = spNormSq v := by
  rw [spNormSq, sum_map_dedup_eq_toFinset, sum_map_dedup_eq_toFinset]
  refine (Finset.sum_subset (fun x hx => List.mem_toFinset.mpr (hsub x (List.mem_toFinset.mp hx)))
    fun x _ hnx => ?_).symm
  rw [getW_eq_zero_of_not_mem v x fun hm => hnx (List.mem_toFinset.mpr hm), mul_zero]

theorem spNormSq_nonneg (v : SparseVec) : 0 ≤ spNormSq v :=
  sum_map_nonneg _ _ fun t _ => mul_self_nonneg (getW v t)

theorem spNormSq_pos {v : SparseVec} (h : ∃ t, getW v t ≠ 0) : 0 < spNormSq v := by
  obtain ⟨t0, ht0⟩ := h
  refine sum_map_pos _ _ (fun t _ => mul_self_nonneg (getW v t)) t0 ?_ (mul_self_pos.mpr ht0)
  exact List.mem_dedup.mpr (mem_keys_of_getW_ne_zero ht0)

/-- The `normA` accumulator of `Tfidf.cosineSimilarity vecA vecB` equals `spNormSq vecA`,
and symmetrically for `normB`: the extra union keys contribute `0`. -/
theorem cosineSimilarity_eq (a b : SparseVec) :
    cosineSimilarity a b =
      if spNormSq a ≠ 0 ∧ spNormSq b ≠ 0 then
        spDot a b / (Real.sqrt (spNormSq a) * Real.sqrt (spNormSq b))
      else 0 := by
  have hA : ((keys a ++ keys b).dedup.map fun t => getW a t * getW a t).sum = spNormSq a :=
    sum_sq_over a _ fun t ht => List.mem_append.mpr (Or.inl ht)
  have hB : ((keys a ++ keys b).dedup.map fun t => getW b t * getW b t).sum = spNormSq b :=
    sum_sq_over b _ fun t ht => List.mem_append.mpr (Or.inr ht)
  rw [cosineSimilarity, spDot]
  simp only [hA, hB]

end Tfidf

/-! ### Helper lemmas: the stable descending sort -/

theorem stableSortDesc_perm {α : Type*} (score : α → ℝ) (l : List α) :
    List.Perm (stableSortDesc score l) l := by
  have h2 := (List.perm_insertionSort (rle score) l.enum).map Prod.snd
  rwa [List.enum_map_snd] at h2

theorem mem_of_mem_stableSortDesc {α : Type*} {score : α → ℝ} {l : List α} {x : α}
    (h : x ∈ stableSortDesc score l) : x ∈ l :=
  (stableSortDesc_perm score l).mem_iff.mp h

theorem stableSortDesc_pairwise {α : Type*} (score : α → ℝ) (l : List α) :
    (stableSortDesc score l).Pairwise fun x y => score y ≤ score x := by
  have hs : (l.enum.insertionSort (rle score)).Pairwise (rle score) :=
    List.sorted_insertionSort _ _
  exact (List.pairwise_map).mpr <| hs.imp fun hr => by
    rcases hr with h | ⟨e, _⟩
    · exact h.le
    · exact e.ge

/-- Stability: in the sorted index-tagged list, two entries with equal scores
appear in strictly increasing original-index order. -/
theorem stableSortDesc_stability {α : Type*} (score : α → ℝ) (l : List α) :
    (l.enum.insertionSort (rle score)).Pairwise
      fun a b => score a.2 = score b.2 → a.1 < b.1 := by
  have hs : (l.enum.insertionSort (rle score)).Pairwise (rle score) :=
    List.sorted_insertionSort _ _
  have hnd : ((l.enum.insertionSort (rle score)).map Prod.fst).Nodup := by
    have hp := (List.perm_insertionSort (rle score) l.enum).map Prod.fst
    rw [List.enum_map_fst] at hp
    exact hp.nodup_iff.mpr (List.nodup_range _)
  have hne : (l.enum.insertionSort (rle score)).Pairwise fun a b => a.1 ≠ b.1 :=
    (List.pairwise_map).mp hnd
  exact (hs.and hne).imp fun h heq => by
    rcases h with ⟨hlt | ⟨_, hle⟩, hfst⟩
    · rw [heq] at hlt; exact absurd hlt (lt_irrefl _)
    · exact lt_of_le_of_ne hle hfst

/-! ### Helper lemmas: the semantic pipeline -/

namespace Sem

theorem mapScores_ok_mem {q : List ℝ} :
    ∀ {cents : List FolderVec} {scored : List Scored},
      mapScores q cents = .ok scored → ∀ s ∈ scored, ∃ c ∈ cents, s.toFolderVec = c := by
  intro cents
  induction cents with
  | nil =>
    intro scored h s hs
    simp only [mapScores, Except.ok.injEq] at h
    subst h; cases hs
  | cons c cs ih =>
    intro scored h s hs
    rw [mapScores] at h
    cases hc : cosineSimilarity q c.vec with
    | error e => rw [hc] at h; cases h
    | ok sc =>
      rw [hc] at h
      cases hm : mapScores q cs with
      | error e => rw [hm] at h; cases h
      | ok rest =>
        rw [hm] at h
        cases h
        rcases List.mem_cons.mp hs with rfl | hmem
        · exact ⟨c, List.mem_cons_self _ _, rfl⟩
        · obtain ⟨c0, hc0, he⟩ := ih hm s hmem
          exact ⟨c0, List.mem_cons_of_mem _ hc0, he⟩

theorem mapScores_ok_of_lengths {q : List ℝ} :
    ∀ {cents : List FolderVec}, (∀ c ∈ cents, c.vec.length = q.length) →
      ∃ scored, mapScores q cents = .ok scored := by
  intro cents
  induction cents with
  | nil => exact fun _ => ⟨[], rfl⟩
  | cons c cs ih =>
    intro h
    obtain ⟨rest, hrest⟩ := ih fun x hx => h x (List.mem_cons_of_mem _ hx)
    have hlen : q.length = c.vec.length := (h c (List.mem_cons_self _ _)).symm
    have hcos : ∃ r, cosineSimilarity q c.vec = .ok r := by
      rw [cosineSimilarity, if_neg (by omega)]
      split
      · exact ⟨0, rfl⟩
      · exact ⟨_, rfl⟩
    obtain ⟨r, hr⟩ := hcos
    rw [mapScores, hr, hrest]
    exact ⟨_, rfl⟩

theorem suggest_ok_elim {q : List ℝ} {cents : List FolderVec} {k : Nat} {out : List Scored}
    (h : suggestFoldersForPage q cents k = .ok out) :
    ∃ scored, mapScores q cents = .ok scored ∧
      out = (stableSortDesc Scored.score scored).take k := by
  rw [suggestFoldersForPage] at h
  cases hm : mapScores q cents with
  | error e => rw [hm] at h; cases h
  | ok scored =>
    rw [hm] at h
    simp only [Except.map, Except.ok.injEq] at h
    exact ⟨scored, rfl, h.symm⟩

theorem suggest_ok_length {q : List ℝ} {cents : List FolderVec} {k : Nat} {out : List Scored}
    (h : suggestFoldersForPage q cents k = .ok out) : out.length ≤ k := by
  obtain ⟨scored, -, rfl⟩ := suggest_ok_elim h
  simp [List.length_take]

theorem suggest_ok_pairwise {q : List ℝ} {cents : List FolderVec} {k : Nat} {out : List Scored}
    (h : suggestFoldersForPage q cents k = .ok out) :
    out.Pairwise fun x y => y.score ≤ x.score := by
  obtain ⟨scored, -, rfl⟩ := suggest_ok_elim h
  exact (stableSortDesc_pairwise Scored.score scored).sublist (List.take_sublist _ _)

theorem suggest_ok_mem {q : List ℝ} {cents : List FolderVec} {k : Nat} {out : List Scored}
    (h : suggestFoldersForPage q cents k = .ok out) :
    ∀ s ∈ out, ∃ c ∈ cents, s.toFolderVec = c := by
  obtain ⟨scored, hm, rfl⟩ := suggest_ok_elim h
  intro s hs
  exact mapScores_ok_mem hm s
    (mem_of_mem_stableSortDesc (List.mem_of_mem_take hs))

theorem buildFolderCentroids_size_pos {e : String → List ℝ} :
    ∀ {fs : List BFolder} {fv : FolderVec}, fv ∈ buildFolderCentroids e fs → fv.size ≠ 0 := by
  intro fs
  induction fs with
  | nil => intro fv h; cases h
  | cons f fs ih =>
    intro fv h
    rw [buildFolderCentroids, List.flatMap_cons] at h
    rcases List.mem_append.mp h with hl | hr
    · by_cases ht : qualifyingTitles f = []
      · rw [if_pos ht] at hl; cases hl
      · rw [if_neg ht] at hl
        simp only [List.mem_singleton] at hl
        subst hl
        simpa using fun hlen => ht (List.eq_nil_of_length_eq_zero hlen)
    · exact ih hr

end Sem

/-! ### Helper lemmas: IDF weights -/

namespace Tfidf

theorem getW_computeIDF {allTFs : List SparseVec} {t : String} (ht : t ∈ vocabOf allTFs) :
    getW (computeIDF allTFs) t =
      Real.log (((allTFs.length : ℝ) + 1) / (1 + (dfOf allTFs t : ℝ))) + 1 :=
  getW_map_pair _ _ t ht (List.nodup_dedup _)

theorem dfOf_le_length (allTFs : List SparseVec) (t : String) :
    dfOf allTFs t ≤ allTFs.length :=
  List.countP_le_length _

theorem idf_val_ge_one (allTFs : List SparseVec) (t : String) :
    1 ≤ Real.log (((allTFs.length : ℝ) + 1) / (1 + (dfOf allTFs t : ℝ))) + 1 := by
  have h1 : (0 : ℝ) < 1 + (dfOf allTFs t : ℝ) := by positivity
  have h2 : (1 + (dfOf allTFs t : ℝ)) ≤ (allTFs.length : ℝ) + 1 := by
    have hle : (dfOf allTFs t : ℝ) ≤ (allTFs.length : ℝ) :=
      Nat.cast_le.mpr (dfOf_le_length allTFs t)
    linarith
  have h3 : (1 : ℝ) ≤ ((allTFs.length : ℝ) + 1) / (1 + (dfOf allTFs t : ℝ)) :=
    (one_le_div h1).mpr h2
  linarith [Real.log_nonneg h3]

theorem termFrequency_pos {tokens : List String} {p : String × ℝ}
    (hp : p ∈ termFrequency tokens) : 0 < p.2 := by
  obtain ⟨t, hts, rfl⟩ := List.mem_map.mp hp
  have htmem : t ∈ tokens := List.mem_dedup.mp hts
  have hc : 0 < tokens.count t := List.count_pos_iff.mpr htmem
  have hl : 0 < tokens.length := List.length_pos.mpr (List.ne_nil_of_mem htmem)
  exact div_pos (by exact_mod_cast hc) (by exact_mod_cast hl)

/-- A concrete run of the lexical vectorizer in which `computeTFIDF` emits the
key `"a"` with weight exactly `0` (the query has no tokens, the corpus
vocabulary is `{"a"}`). -/
theorem zero_weight_member :
    ("a", (0 : ℝ)) ∈ computeTFIDF (termFrequency []) (computeIDF [termFrequency ["a"]]) := by
  obtain ⟨v, hv⟩ : ∃ v, computeIDF [termFrequency ["a"]] = [("a", v)] := ⟨_, rfl⟩
  rw [hv]
  have h2 : computeTFIDF (termFrequency []) [("a", v)] = [("a", 0 * v)] := rfl
  rw [h2, zero_mul]
  exact List.mem_singleton.mpr rfl

end Tfidf

/-! ### Claim theorems -/

/-- C1: `cosineSimilarity` is total over its inputs: for every pair of vectors
(sparse term-weight maps in the lexical engine, same-length dense arrays in the
semantic engine), if either vector's norm is `0` the result is exactly `0` —
never NaN and never an error — and otherwise it equals
`(Σ aᵢbᵢ) / (‖a‖·‖b‖)`, so `cosine(v, v) = 1` for every non-zero `v` and
`cosine(v, zeroVector) = 0` for every `v`. -/
theorem cosineSimilarity_total :
    (∀ a b : Tfidf.SparseVec, Tfidf.spNormSq a = 0 ∨ Tfidf.spNormSq b = 0 →
      Tfidf.cosineSimilarity a b = 0) ∧
    (∀ a b : Tfidf.SparseVec, Tfidf.spNormSq a ≠ 0 → Tfidf.spNormSq b ≠ 0 →
      Tfidf.cosineSimilarity a b =
        Tfidf.spDot a b / (Real.sqrt (Tfidf.spNormSq a) * Real.sqrt (Tfidf.spNormSq b))) ∧
    (∀ v : Tfidf.SparseVec, (∃ t, Tfidf.getW v t ≠ 0) → Tfidf.cosineSimilarity v v = 1) ∧
    (∀ v : Tfidf.SparseVec, Tfidf.cosineSimilarity v [] = 0) ∧
    (∀ a b : List ℝ, a.length = b.length → ∃ r, Sem.cosineSimilarity a b = .ok r) ∧
    (∀ a b : List ℝ, a.length = b.length → Sem.denNormSq a = 0 ∨ Sem.denNormSq b = 0 →
      Sem.cosineSimilarity a b = .ok 0) ∧
    (∀ a b : List ℝ, a.length = b.length → Sem.denNormSq a ≠ 0 → Sem.denNormSq b ≠ 0 →
      Sem.cosineSimilarity a b =
        .ok (Sem.denDot a b / (Real.sqrt (Sem.denNormSq a) * Real.sqrt (Sem.denNormSq b)))) ∧
    (∀ v : List ℝ, (∃ x ∈ v, x ≠ 0) → Sem.cosineSimilarity v v = .ok 1) ∧
    (∀ v : List ℝ, Sem.cosineSimilarity v (List.replicate v.length 0) = .ok 0) := by
  have hspdd : ∀ v : Tfidf.SparseVec, Tfidf.spDot v v = Tfidf.spNormSq v := fun v =>
    Tfidf.sum_sq_over v _ fun t ht => List.mem_append.mpr (Or.inl ht)
  have hden_pos : ∀ (v : List ℝ), (∃ x ∈ v, x ≠ 0) → 0 < Sem.denNormSq v := by
    rintro v ⟨x0, hx0, hne⟩
    exact sum_map_pos _ v (fun a _ => mul_self_nonneg a) x0 hx0 (mul_self_pos.mpr hne)
  refine ⟨?_, ?_, ?_, ?_, ?_, ?_, ?_, ?_, ?_⟩
  · intro a b h
    rw [Tfidf.cosineSimilarity_eq, if_neg (by tauto)]
  · intro a b ha hb
    rw [Tfidf.cosineSimilarity_eq, if_pos ⟨ha, hb⟩]
  · intro v h
    have hpos : 0 < Tfidf.spNormSq v := Tfidf.spNormSq_pos h
    rw [Tfidf.cosineSimilarity_eq, if_pos ⟨hpos.ne', hpos.ne'⟩, hspdd,
      Real.mul_self_sqrt hpos.le, div_self hpos.ne']
  · intro v
    have hz : Tfidf.spNormSq ([] : Tfidf.SparseVec) = 0 := rfl
    rw [Tfidf.cosineSimilarity_eq, if_neg (by rw [hz]; tauto)]
  · intro a b h
    rw [Sem.cosineSimilarity, if_neg (by simp [h])]
    split
    · exact ⟨0, rfl⟩
    · exact ⟨_, rfl⟩
  · intro a b h hor
    rw [Sem.cosineSimilarity, if_neg (by simp [h]), if_pos hor]
  · intro a b h ha hb
    rw [Sem.cosineSimilarity, if_neg (by simp [h]), if_neg (by tauto)]
  · intro v h
    have hpos : 0 < Sem.denNormSq v := hden_pos v h
    have hdd : Sem.denDot v v = Sem.denNormSq v := by
      rw [Sem.denDot, Sem.denNormSq, List.zipWith_same]
    rw [Sem.cosineSimilarity, if_neg (by simp),
      if_neg (by rw [not_or]; exact ⟨hpos.ne', hpos.ne'⟩), hdd,
      Real.mul_self_sqrt hpos.le, div_self hpos.ne']
  · intro v
    have hz : Sem.denNormSq (List.replicate v.length (0 : ℝ)) = 0 := by
      simp [Sem.denNormSq, List.map_replicate]
    rw [Sem.cosineSimilarity, if_neg (by simp), if_pos (Or.inr hz)]

/-- Witness for C1: the guarded totality facts evaluated at concrete vectors. -/
theorem cosineSimilarity_total_witness :
    Tfidf.cosineSimilarity [] [] = 0 ∧
    Tfidf.cosineSimilarity [("a", 1)] [("a", 1)] =
      Tfidf.spDot [("a", 1)] [("a", 1)] /
        (Real.sqrt (Tfidf.spNormSq [("a", 1)]) * Real.sqrt (Tfidf.spNormSq [("a", 1)])) ∧
    Tfidf.cosineSimilarity [("a", 1)] [("a", 1)] = 1 ∧
    (∃ r, Sem.cosineSimilarity [1] [2] = .ok r) ∧
    Sem.cosineSimilarity [0] [0] = .ok 0 ∧
    Sem.cosineSimilarity [1] [1] =
      .ok (Sem.denDot [1] [1] /
        (Real.sqrt (Sem.denNormSq [1]) * Real.sqrt (Sem.denNormSq [1]))) ∧
    Sem.cosineSimilarity [1] [1] = .ok 1 := by
  have hg : Tfidf.getW [("a", (1 : ℝ))] "a" = 1 := rfl
  have hsp : Tfidf.spNormSq [("a", (1 : ℝ))] = 1 := by
    show ((["a"].dedup).map fun t => Tfidf.getW [("a", (1 : ℝ))] t *
      Tfidf.getW [("a", (1 : ℝ))] t).sum = 1
    norm_num [hg]
  have hd0 : Sem.denNormSq [(0 : ℝ)] = 0 := by norm_num [Sem.denNormSq]
  have hd1 : Sem.denNormSq [(1 : ℝ)] = 1 := by norm_num [Sem.denNormSq]
  exact ⟨cosineSimilarity_total.1 [] [] (Or.inl rfl),
    cosineSimilarity_total.2.1 _ _ (by rw [hsp]; norm_num) (by rw [hsp]; norm_num),
    cosineSimilarity_total.2.2.1 _ ⟨"a", by rw [hg]; norm_num⟩,
    cosineSimilarity_total.2.2.2.2.1 [1] [2] rfl,
    cosineSimilarity_total.2.2.2.2.2.1 [0] [0] rfl (Or.inl hd0),
    cosineSimilarity_total.2.2.2.2.2.2.1 [1] [1] rfl (by rw [hd1]; norm_num)
      (by rw [hd1]; norm_num),
    cosineSimilarity_total.2.2.2.2.2.2.2.1 [1] ⟨1, by norm_num⟩⟩

/-- C2: for every query, methodId and `k > 0`, rank returns a sequence of
length `≤ k` sorted descending by score, and folders with exactly equal scores
keep their original order from the fingerprint set (stable, deterministic
tie-breaking).  Stated for both engines: the semantic
`suggestFoldersForPage … k` and the lexical `topFolders` (`k = 3`); stability
is the pairwise index property of the index-tagged sort both are built on. -/
theorem rank_sorted_stable :
    (∀ (q : List ℝ) (cents : List Sem.FolderVec) (k : Nat), 0 < k →
      ∀ out, Sem.suggestFoldersForPage q cents k = .ok out →
        out.length ≤ k ∧ out.Pairwise fun x y => x.score ≥ y.score) ∧
    (∀ scored : List Sem.Scored,
      (scored.enum.insertionSort (rle Sem.Scored.score)).Pairwise
        fun a b => Sem.Scored.score a.2 = Sem.Scored.score b.2 → a.1 < b.1) ∧
    (∀ (pv : Tfidf.SparseVec) (folders : List Tfidf.FolderData),
      (Tfidf.topFolders pv folders).length ≤ 3 ∧
        (Tfidf.topFolders pv folders).Pairwise fun x y => x.2 ≥ y.2) ∧
    (∀ scored : List (Tfidf.FolderData × ℝ),
      (scored.enum.insertionSort (rle Prod.snd)).Pairwise
        fun a b => a.2.2 = b.2.2 → a.1 < b.1) := by
  refine ⟨?_, ?_, ?_, ?_⟩
  · intro q cents k _ out hout
    exact ⟨Sem.suggest_ok_length hout, Sem.suggest_ok_pairwise hout⟩
  · exact fun scored => stableSortDesc_stability Sem.Scored.score scored
  · intro pv folders
    constructor
    · rw [Tfidf.topFolders]; simp [List.length_take]
    · exact (stableSortDesc_pairwise Prod.snd _).sublist (List.take_sublist _ _)
  · exact fun scored => stableSortDesc_stability Prod.snd scored

/-- Witness for C2: the ranking facts at a concrete call with `k = 1`. -/
theorem rank_sorted_stable_witness :
    ([] : List Sem.Scored).length ≤ 1 ∧
    ([] : List Sem.Scored).Pairwise (fun x y => x.score ≥ y.score) :=
  rank_sorted_stable.1 [] [] 1 Nat.one_pos [] rfl

/-- C3: for every query, a folder whose fingerprint has `sampleSize == 0`
never appears in the output of rank.  In this code the exclusion happens at
build time: `buildFolderCentroids` never emits a fingerprint with `size = 0`
(`if (!titles.length) continue;`), hence no ranking output over built
fingerprints ever contains one. -/
theorem rank_excludes_empty_folders :
    ∀ (e : String → List ℝ) (fs : List Sem.BFolder) (q : List ℝ) (k : Nat),
      (Sem.buildFolderCentroids e fs).all (fun fv => fv.size != 0) = true ∧
      (((Sem.suggestFoldersForPage q (Sem.buildFolderCentroids e fs) k).toOption.getD
          []).all fun s => s.size != 0) = true := by
  intro e fs q k
  constructor
  · exact List.all_eq_true.mpr fun fv hfv => by
      simpa [bne_iff_ne] using Sem.buildFolderCentroids_size_pos hfv
  · cases h : Sem.suggestFoldersForPage q (Sem.buildFolderCentroids e fs) k with
    | error msg => rfl
    | ok out =>
      refine List.all_eq_true.mpr fun s hs => ?_
      obtain ⟨c, hc, he⟩ := Sem.suggest_ok_mem h s hs
      have : s.size = c.size := congrArg Sem.FolderVec.size he
      simpa [bne_iff_ne, this] using Sem.buildFolderCentroids_size_pos hc

/-- Counterexample to C4: the lexical request handler's cached-set check is
hard-coded to `true`, so with an IDF vector and folder list already cached it
still runs the corpus build (one build on one call, two builds across two
calls, never at most once), and it returns the rebuild result, not the cached
IDF vector. -/
theorem ensure_rebuilds_counterexample :
    (Tfidf.lexEnsure [] ⟨some [("a", 1)], some []⟩).2.2 = 1 ∧
    ¬ ((Tfidf.lexEnsure [] ⟨some [("a", 1)], some []⟩).2.2 +
        (Tfidf.lexEnsure []
          (Tfidf.lexEnsure [] ⟨some [("a", 1)], some []⟩).2.1).2.2 ≤ 1) ∧
    (Tfidf.lexEnsure [] ⟨some [("a", 1)], some []⟩).1.1 ≠ [("a", 1)] := by
  refine ⟨rfl, ?_, ?_⟩
  · exact fun h => Nat.not_succ_le_self 1 h
  · exact fun h => List.noConfusion h

/-- C4 as amended: the semantic `ensure` (`loadCentroids`) is idempotent with
respect to building — a cached set is returned as-is with no rebuild, and two
consecutive calls with no intervening rebuild/invalidate return identical
fingerprint sets while running the expensive corpus build at most once (the
`Nat` component counts builds).  The lexical handler, however, rebuilds the
corpus exactly once on every request regardless of the cached state, because
its cache check is hard-coded to `true`. -/
theorem ensure_idempotent_amended :
    (∀ (e : String → List ℝ) (fs : List Sem.BFolder) (s : Sem.CacheState)
        (c : List Sem.FolderVec),
      s.cache = some c → Sem.loadCentroids e fs s = (c, s, 0)) ∧
    (∀ (e : String → List ℝ) (fs : List Sem.BFolder) (s : Sem.CacheState),
      (Sem.loadCentroids e fs s).1 =
        (Sem.loadCentroids e fs (Sem.loadCentroids e fs s).2.1).1 ∧
      (Sem.loadCentroids e fs s).2.2 +
        (Sem.loadCentroids e fs (Sem.loadCentroids e fs s).2.1).2.2 ≤ 1) ∧
    (∀ (src : List (String × String × Tfidf.SparseVec)) (s : Tfidf.LexStored),
      Tfidf.lexEnsure src s = (Tfidf.rebuildCorpus src,
        ⟨some (Tfidf.rebuildCorpus src).1, some (Tfidf.rebuildCorpus src).2⟩, 1)) := by
  refine ⟨?_, ?_, fun src s => rfl⟩
  · rintro e fs ⟨cache⟩ c h
    subst h
    rfl
  · rintro e fs ⟨cache⟩
    cases cache with
    | none => exact ⟨rfl, by simp [Sem.loadCentroids]⟩
    | some c => exact ⟨rfl, by simp [Sem.loadCentroids]⟩

/-- Witness for C4 (amended): a concrete cached semantic state is returned
unchanged with zero builds. -/
theorem ensure_idempotent_amended_witness :
    Sem.loadCentroids (fun _ => []) [] ⟨some []⟩ = ([], ⟨some []⟩, 0) :=
  ensure_idempotent_amended.1 (fun _ => []) [] ⟨some []⟩ [] rfl

/-- Counterexample to C5: when no folders qualify, the lexical ranking request
handler (`main` in `src/background.ts`) responds with
`{ error: '適切なフォルダが見つかりませんでした' }`, not with an empty result
sequence. -/
theorem no_qualifying_error_counterexample :
    Tfidf.mainResponse [] [] = .error "適切なフォルダが見つかりませんでした" ∧
    Tfidf.mainResponse [] [] ≠ .folders [] := by
  have h1 : Tfidf.mainResponse [] [] = .error "適切なフォルダが見つかりませんでした" := rfl
  exact ⟨h1, fun h => by rw [h1] at h; exact Tfidf.LexResponse.noConfusion h⟩

/-- C5 as amended: if no folders qualify, the semantic `SUGGEST_FOLDERS` path
returns an empty result sequence (`ok []`, not an error), but the lexical
`BOOKMARK_MANAGER` handler responds with an error message instead of an empty
sequence. -/
theorem no_qualifying_amended :
    (∀ (q : List ℝ) (k : Nat), Sem.suggestFoldersForPage q [] k = .ok []) ∧
    (∀ pv : Tfidf.SparseVec,
      Tfidf.mainResponse pv [] = .error "適切なフォルダが見つかりませんでした") :=
  ⟨fun q k => by simp [Sem.suggestFoldersForPage, Sem.mapScores, Except.map, stableSortDesc],
    fun _ => rfl⟩

/-- C6: for every corpus of `N` term-frequency vectors, `computeIDF` returns
`idf[term] = ln((N+1)/(1+df[term])) + 1` where `df[term]` is the number of
input vectors containing that term; a term occurring in every document gets
idf exactly `1`, and every vocabulary term gets idf `≥ 1`. -/
theorem computeIDF_formula :
    (∀ (allTFs : List Tfidf.SparseVec) (t : String), t ∈ Tfidf.vocabOf allTFs →
      Tfidf.getW (Tfidf.computeIDF allTFs) t =
        Real.log (((allTFs.length : ℝ) + 1) / (1 + (Tfidf.dfOf allTFs t : ℝ))) + 1) ∧
    (∀ (allTFs : List Tfidf.SparseVec) (t : String), allTFs ≠ [] →
      (∀ tf ∈ allTFs, t ∈ Tfidf.keys tf) →
      Tfidf.getW (Tfidf.computeIDF allTFs) t = 1) ∧
    (∀ (allTFs : List Tfidf.SparseVec) (t : String), t ∈ Tfidf.vocabOf allTFs →
      1 ≤ Tfidf.getW (Tfidf.computeIDF allTFs) t) := by
  refine ⟨fun allTFs t ht => Tfidf.getW_computeIDF ht, ?_, ?_⟩
  · intro allTFs t hne hall
    obtain ⟨tf0, htf0⟩ := List.exists_mem_of_ne_nil allTFs hne
    have ht : t ∈ Tfidf.vocabOf allTFs :=
      List.mem_dedup.mpr (List.mem_flatMap.mpr ⟨tf0, htf0, hall tf0 htf0⟩)
    have hdf : Tfidf.dfOf allTFs t = allTFs.length :=
      List.countP_eq_length.mpr fun tf htf => by simpa using hall tf htf
    rw [Tfidf.getW_computeIDF ht, hdf]
    have hpos : ((allTFs.length : ℝ) + 1) ≠ 0 := by positivity
    rw [add_comm (1 : ℝ) ((allTFs.length : ℝ)), div_self hpos, Real.log_one, zero_add]
  · intro allTFs t ht
    rw [Tfidf.getW_computeIDF ht]
    exact Tfidf.idf_val_ge_one allTFs t

/-- Witness for C6: a one-document corpus whose single document contains the
term `"a"`, whose idf is therefore exactly `1`. -/
theorem computeIDF_formula_witness :
    Tfidf.getW (Tfidf.computeIDF [[("a", 1)]]) "a" =
      Real.log (((([[("a", (1 : ℝ))]] : List Tfidf.SparseVec).length : ℝ) + 1) /
        (1 + (Tfidf.dfOf [[("a", 1)]] "a" : ℝ))) + 1 ∧
    Tfidf.getW (Tfidf.computeIDF [[("a", 1)]]) "a" = 1 ∧
    1 ≤ Tfidf.getW (Tfidf.computeIDF [[("a", 1)]]) "a" := by
  have ht : "a" ∈ Tfidf.vocabOf [[("a", (1 : ℝ))]] := by
    simp [Tfidf.vocabOf, Tfidf.keys]
  refine ⟨computeIDF_formula.1 [[("a", 1)]] "a" ht, ?_, computeIDF_formula.2.2 [[("a", 1)]] "a" ht⟩
  refine computeIDF_formula.2.1 [[("a", 1)]] "a" (by simp) ?_
  intro tf htf
  rw [List.mem_singleton.mp htf]
  simp [Tfidf.keys]

/-- C7: for every folder with at least one qualifying item title,
`buildFolderCentroids` selects the first qualifying titles in source order up
to the cap of 3, embeds each, and stores the element-wise arithmetic mean of
the resulting vectors without normalizing it, with `size` equal to the number
of titles actually embedded. -/
theorem buildFingerprint_mean :
    ∀ (e : String → List ℝ) (f : Sem.BFolder) (d : Nat),
      Sem.qualifyingTitles f ≠ [] →
      (∀ t ∈ Sem.qualifyingTitles f, (e t).length = d) →
      Sem.buildFolderCentroids e [f] =
        [Sem.FolderVec.mk f.id f.title
          ((List.range d).map fun i =>
            (((Sem.qualifyingTitles f).map e).map fun v => v.getD i 0).sum /
              ((Sem.qualifyingTitles f).length : ℝ))
          (Sem.qualifyingTitles f).length] ∧
      Sem.qualifyingTitles f =
        ((f.children.filter fun c => c.url.getD "" != "").map Sem.BChild.title).take 3 := by
  intro e f d ht hlen
  have hdim : (((Sem.qualifyingTitles f).map e).headD []).length = d := by
    cases hq : Sem.qualifyingTitles f with
    | nil => exact absurd hq ht
    | cons t0 rest =>
      have := hlen t0 (by rw [hq]; exact List.mem_cons_self _ _)
      simpa using this
  constructor
  · rw [Sem.buildFolderCentroids, List.flatMap_cons, List.flatMap_nil, List.append_nil,
      if_neg ht]
    simp only [hdim, List.length_map]
  · rfl

/-- Witness for C7: a folder with one qualifying item title `"t"` embedded as
`[2]` gets the singleton mean fingerprint with `size = 1`. -/
theorem buildFingerprint_mean_witness :
    Sem.buildFolderCentroids (fun _ => [2]) [(⟨"1", "F", [⟨"t", some "u"⟩]⟩ : Sem.BFolder)] =
      [Sem.FolderVec.mk "1" "F"
        ((List.range 1).map fun i =>
          (((Sem.qualifyingTitles ⟨"1", "F", [⟨"t", some "u"⟩]⟩).map fun _ => [2]).map
            fun v => v.getD i 0).sum /
            ((Sem.qualifyingTitles ⟨"1", "F", [⟨"t", some "u"⟩]⟩).length : ℝ))
        (Sem.qualifyingTitles ⟨"1", "F", [⟨"t", some "u"⟩]⟩).length] ∧
    Sem.qualifyingTitles ⟨"1", "F", [⟨"t", some "u"⟩]⟩ =
      (((⟨"1", "F", [⟨"t", some "u"⟩]⟩ : Sem.BFolder).children.filter
        fun c => c.url.getD "" != "").map Sem.BChild.title).take 3 :=
  buildFingerprint_mean (fun _ => [2]) ⟨"1", "F", [⟨"t", some "u"⟩]⟩ 1 (by decide)
    fun _ _ => rfl

/-- Counterexample to C8: a folder with zero qualifying item titles (its only
child is a subfolder, `url` absent) produces no fingerprint at all —
`buildFolderCentroids` yields the empty set rather than a fingerprint with
`sampleSize = 0`. -/
theorem empty_folder_no_fingerprint_counterexample :
    Sem.buildFolderCentroids (fun _ => [1]) [(⟨"c", "C", [⟨"D", none⟩]⟩ : Sem.BFolder)] =
      [] := rfl

/-- C8 as amended: for every folder with zero qualifying item titles,
`buildFolderCentroids` skips the folder entirely
(`if (!titles.length) continue;`): no fingerprint is created for it, so its
exclusion from ranking happens at build time, not downstream at ranking time. -/
theorem empty_folder_skipped :
    ∀ (e : String → List ℝ) (f : Sem.BFolder) (rest : List Sem.BFolder),
      Sem.qualifyingTitles f = [] →
      Sem.buildFolderCentroids e (f :: rest) = Sem.buildFolderCentroids e rest := by
  intro e f rest h
  simp only [Sem.buildFolderCentroids, List.flatMap_cons, h, if_pos, List.nil_append]

/-- Witness for C8 (amended): the concrete empty folder is skipped. -/
theorem empty_folder_skipped_witness :
    Sem.buildFolderCentroids (fun _ => [1])
        [(⟨"c", "C", [⟨"D", none⟩]⟩ : Sem.BFolder)] =
      Sem.buildFolderCentroids (fun _ => [1]) [] :=
  empty_folder_skipped (fun _ => [1]) ⟨"c", "C", [⟨"D", none⟩]⟩ [] (by decide)

/-- Counterexample to C9: `computeTFIDF` stores the key `"a"` with weight
exactly `0` (the scored document has no tokens while `"a"` is in the corpus
vocabulary), so its output contains a key whose weight is not strictly
positive. -/
theorem sparse_weight_counterexample :
    ("a", (0 : ℝ)) ∈ Tfidf.computeTFIDF (Tfidf.termFrequency [])
      (Tfidf.computeIDF [Tfidf.termFrequency ["a"]]) ∧ ¬ (0 : ℝ) > 0 :=
  ⟨Tfidf.zero_weight_member, lt_irrefl 0⟩

/-- C9 as amended: `termFrequency` outputs contain a key only when its weight
is strictly positive, but `computeTFIDF` outputs contain one key per term of
the IDF vocabulary with a non-negative weight — a key may carry weight `0`
when the document lacks that vocabulary term. -/
theorem sparse_weight_invariant_amended :
    (∀ (tokens : List String) (p : String × ℝ), p ∈ Tfidf.termFrequency tokens → 0 < p.2) ∧
    (∀ tf idf : Tfidf.SparseVec, Tfidf.keys (Tfidf.computeTFIDF tf idf) = Tfidf.keys idf) ∧
    (∀ (tokens : List String) (allTFs : List Tfidf.SparseVec) (p : String × ℝ),
      p ∈ Tfidf.computeTFIDF (Tfidf.termFrequency tokens) (Tfidf.computeIDF allTFs) →
      0 ≤ p.2) := by
  refine ⟨fun tokens p hp => Tfidf.termFrequency_pos hp, ?_, ?_⟩
  · intro tf idf
    simp [Tfidf.keys, Tfidf.computeTFIDF, List.map_map, Function.comp]
  · intro tokens allTFs p hp
    obtain ⟨q, hq, rfl⟩ := List.mem_map.mp hp
    obtain ⟨t, htv, rfl⟩ := List.mem_map.mp hq
    refine mul_nonneg (Tfidf.getW_nonneg _ _ ?_) ?_
    · exact fun r hr => (Tfidf.termFrequency_pos hr).le
    · exact le_trans zero_le_one (Tfidf.idf_val_ge_one allTFs t)

/-- Witness for C9 (amended): evaluated at a one-token document and at the
zero-token document against the vocabulary `{"a"}`. -/
theorem sparse_weight_invariant_amended_witness :
    (0 : ℝ) < 1 ∧ (0 : ℝ) ≤ 0 :=
  ⟨by
    have h1 : ("a", (1 : ℝ)) ∈ Tfidf.termFrequency ["a"] := by
      simp [Tfidf.termFrequency]
    exact sparse_weight_invariant_amended.1 ["a"] ("a", 1) h1,
   sparse_weight_invariant_amended.2.2 [] [Tfidf.termFrequency ["a"]] ("a", 0)
    Tfidf.zero_weight_member⟩

/-- C10: for every incoming ranking request, the caller-supplied `k` is
ignored by the request handlers: the semantic `SUGGEST_FOLDERS` handler always
ranks with the fixed default `k = 5`, and the lexical handler always truncates
to the top 3, regardless of any `k` field in the request message. -/
theorem handlers_ignore_k :
    (∀ (q : List ℝ) (cents : List Sem.FolderVec) (a : String) (k1 k2 : Option Nat),
      Sem.handleSuggestMessage q cents ⟨a, k1⟩ = Sem.handleSuggestMessage q cents ⟨a, k2⟩) ∧
    (∀ (q : List ℝ) (cents : List Sem.FolderVec) (msg : Sem.RequestMsg),
      Sem.handleSuggestMessage q cents msg =
        if msg.action = "SUGGEST_FOLDERS" then some (Sem.suggestFoldersForPage q cents 5)
        else none) ∧
    (∀ (q : List ℝ) (cents : List Sem.FolderVec) (msg : Sem.RequestMsg)
        (out : List Sem.Scored),
      Sem.handleSuggestMessage q cents msg = some (.ok out) → out.length ≤ 5) ∧
    (∀ (pv : Tfidf.SparseVec) (fs : List Tfidf.FolderData) (a : String) (k1 k2 : Option Nat),
      Tfidf.handleMessage pv fs ⟨a, k1⟩ = Tfidf.handleMessage pv fs ⟨a, k2⟩) ∧
    (∀ (pv : Tfidf.SparseVec) (fs : List Tfidf.FolderData) (msg : Sem.RequestMsg)
        (r : List (String × String × ℝ)),
      Tfidf.handleMessage pv fs msg = some (.folders r) → r.length ≤ 3) := by
  refine ⟨fun _ _ _ _ _ => rfl, fun _ _ _ => rfl, ?_, fun _ _ _ _ _ => rfl, ?_⟩
  · intro q cents msg out hm
    by_cases ha : msg.action = "SUGGEST_FOLDERS"
    · rw [Sem.handleSuggestMessage, if_pos ha, Option.some.injEq] at hm
      exact Sem.suggest_ok_length hm
    · rw [Sem.handleSuggestMessage, if_neg ha] at hm
      exact Option.noConfusion hm
  · intro pv fs msg r hm
    by_cases ha : msg.action = "BOOKMARK_MANAGER"
    · rw [Tfidf.handleMessage, if_pos ha, Option.some.injEq] at hm
      simp only [Tfidf.mainResponse] at hm
      by_cases htop : 0 < (Tfidf.topFolders pv fs).length
      · rw [if_pos htop] at hm
        injection hm with h2
        rw [← h2, List.length_map, Tfidf.topFolders]
        simp [List.length_take]
      · rw [if_neg htop] at hm
        exact Tfidf.LexResponse.noConfusion hm
    · rw [Tfidf.handleMessage, if_neg ha] at hm
      exact Option.noConfusion hm

/-- Witness for C10: concrete requests for both handlers; the lexical handler
answers with exactly one folder triple, within the cap of 3. -/
theorem handlers_ignore_k_witness :
    ([] : List Sem.Scored).length ≤ 5 ∧
    [("1", "t", Tfidf.cosineSimilarity [] [])].length ≤ 3 :=
  ⟨handlers_ignore_k.2.2.1 [] [] ⟨"SUGGEST_FOLDERS", none⟩ [] rfl,
   handlers_ignore_k.2.2.2.2 [] [⟨"1", "t", [], []⟩] ⟨"BOOKMARK_MANAGER", none⟩
    [("1", "t", Tfidf.cosineSimilarity [] [])] rfl⟩
